import Mathlib

/-!
Verification of the GizmoSQL UI backend core (query classification and
pagination, request-parameter handling, connect/session registry, and the
Arrow value normalizer) against its natural-language specification.

The definitions below are shallow embeddings of:
  - src/src/backend/src/routes/api.ts   (canPaginate, /connect, /query)
  - src/app/api/query/route.ts          (identical canPaginate / POST handler)
  - src/src/backend/src/services/gizmosql.ts
        (convertValue, extractDecimalScale, decimalWordsToNumber)

JavaScript strings are modelled as `List Char`; JavaScript numbers are
modelled as exact rationals (`ℚ`).  Division by a power of ten is computed
with `Rat.divInt` so that all definitions evaluate inside the kernel.
-/

set_option maxRecDepth 16384

/-- Models the character class `\s` of JavaScript regular expressions and the
whitespace set of `String.prototype.trim` for the code points that can occur
in SQL text: TAB, LF, VT, FF, CR, SPACE, NBSP and BOM.  The exotic Unicode
space separators (U+1680, U+2000.., U+3000) are not modelled; no claim
exercises them. -/
def isJsWs (c : Char) : Bool :=
  [9, 10, 11, 12, 13, 32, 160, 65279].contains c.toNat

/-- Models `String.prototype.trim`: remove leading and trailing whitespace. -/
def jsTrim (cs : List Char) : List Char :=
  ((cs.dropWhile isJsWs).reverse.dropWhile isJsWs).reverse

/-- ASCII-only model of `String.prototype.toUpperCase` (SQL keywords are
ASCII; full Unicode case mapping is not needed by any claim). -/
def upperStr (s : String) : String :=
  String.mk (s.data.map Char.toUpper)

/-- ASCII-only model of `String.prototype.toLowerCase`. -/
def lowerStr (s : String) : String :=
  String.mk (s.data.map Char.toLower)

/-- Does the list start with the given pattern of characters? -/
def listStartsWith : List Char → List Char → Bool
  | [], _ => true
  | _ :: _, [] => false
  | p :: ps, c :: cs => p == c && listStartsWith ps cs

/-- Substring search on character lists. -/
def subSearch (pat : List Char) : List Char → Bool
  | [] => pat.isEmpty
  | c :: cs => listStartsWith pat (c :: cs) || subSearch pat cs

/-- Models `String.prototype.includes`. -/
def jsIncludes (s sub : String) : Bool :=
  subSearch sub.data s.data

/-- Models the regular expression test `/^\d+$/.test(k)`: a nonempty string
of ASCII digits. -/
def isDigitKey (k : String) : Bool :=
  !k.data.isEmpty && k.data.all (fun c => c.isDigit)

/-- Skip through the first occurrence of a block-comment closer `*/`,
returning the remaining characters, or `none` when there is no closer.
Used to model the non-greedy body `[\s\S]*?\*\//` of the block-comment
regular expression in `canPaginate`. -/
def dropThroughClose : List Char → Option (List Char)
  | '*' :: '/' :: rest => some rest
  | _ :: rest => dropThroughClose rest
  | [] => none

/-- Fueled scanner for `normalized.replace(/\/\*[\s\S]*?\*\//g, '')`
(api.ts line 88): each global match spans from a `/*` to the nearest
following `*/`; an unclosed `/*` matches nothing and the rest of the string
is kept verbatim.  Every step consumes at least one character, so fuel equal
to the length of the input suffices. -/
def rbcGo : Nat → List Char → List Char
  | 0, cs => cs
  | fuel + 1, cs =>
    match cs with
    | '/' :: '*' :: rest =>
      (match dropThroughClose rest with
       | some rest2 => rbcGo fuel rest2
       | none => cs)
    | c :: rest => c :: rbcGo fuel rest
    | [] => []

/-- Models removing block comments `/* ... */` (non-greedy, spanning
newlines), api.ts line 88. -/
def removeBlockComments (cs : List Char) : List Char :=
  rbcGo cs.length cs

/-- Drop characters up to (but not including) the next newline; models the
extent `[^\n]*` of a line-comment match. -/
def keepFromNewline : List Char → List Char
  | [] => []
  | c :: rest => if c == '\n' then c :: rest else keepFromNewline rest

/-- Fueled scanner for the global replacement of the pattern `--[^\n]*` by
the empty string (api.ts line 90): each match spans from `--` to the end of
the line, the newline itself is kept. -/
def rlcGo : Nat → List Char → List Char
  | 0, cs => cs
  | fuel + 1, cs =>
    match cs with
    | '-' :: '-' :: rest => rlcGo fuel (keepFromNewline rest)
    | c :: rest => c :: rlcGo fuel rest
    | [] => []

/-- Models removing line comments `-- ...`, api.ts line 90. -/
def removeLineComments (cs : List Char) : List Char :=
  rlcGo cs.length cs

mutual

/-- Models `normalized.split(/\s+/)`: split on runs of whitespace.  The
second argument accumulates the current token in reverse. -/
def splitWsTok : List Char → List Char → List String
  | [], acc => [String.mk acc.reverse]
  | c :: rest, acc =>
    if isJsWs c then String.mk acc.reverse :: splitWsSkip rest
    else splitWsTok rest (c :: acc)

/-- Companion of `splitWsTok`: consuming a whitespace run. -/
def splitWsSkip : List Char → List String
  | [] => [""]
  | c :: rest => if isJsWs c then splitWsSkip rest else splitWsTok rest [c]

end

/-- Models `s.split(/\s+/)` on a whole string. -/
def jsSplitWs (cs : List Char) : List String :=
  splitWsTok cs []

/-- The keyword whitelist of `canPaginate` (api.ts line 99). -/
def paginatableKeywords : List String :=
  ["SELECT", "WITH", "TABLE", "VALUES"]

/-- Direct translation of `canPaginate` (api.ts lines 83-102 and the
identical copy in app/api/query/route.ts lines 5-24): trim, strip block
comments, strip line comments, trim again, take the first
whitespace-delimited token, upper-case it, and test membership in the
keyword whitelist. -/
def canPaginate (sql : String) : Bool :=
  let normalized0 := jsTrim sql.data
  let normalized1 := removeBlockComments normalized0
  let normalized2 := removeLineComments normalized1
  let normalized3 := jsTrim normalized2
  let firstWord := upperStr ((jsSplitWs normalized3).headD "")
  decide (firstWord ∈ paginatableKeywords)

/-- Specification-side description of the classification: the first
whitespace-delimited token of the input after trimming, removing block
comments, removing line comments and trimming again, upper-cased. -/
def firstSqlKeyword (sql : String) : String :=
  upperStr ((jsSplitWs (jsTrim (removeLineComments (removeBlockComments (jsTrim sql.data))))).headD "")

/-- Models `sql.replace(/;+\s*$/, '')` (api.ts line 131): if the string ends
in a run of semicolons followed only by whitespace, remove that run and the
trailing whitespace; otherwise the string is unchanged (in particular pure
trailing whitespace without a semicolon is kept). -/
def stripTrailingSemis (s : String) : String :=
  let rcs := s.data.reverse
  let afterWs := rcs.dropWhile isJsWs
  match afterWs with
  | ';' :: _ => String.mk ((afterWs.dropWhile (fun c => c == ';')).reverse)
  | _ => s

/-- The rewritten SQL of the paginatable path (api.ts line 131):
`SELECT * FROM (<sql without trailing semicolons>) AS __paginated_query
LIMIT <limit+1> OFFSET <offset>`. -/
def paginatedSql (sql : String) (pageLimit pageOffset : Int) : String :=
  "SELECT * FROM (" ++ stripTrailingSemis sql ++ ") AS __paginated_query LIMIT " ++
    toString (pageLimit + 1) ++ " OFFSET " ++ toString pageOffset

/-- Models `Array.prototype.slice(0, e)` for a possibly negative end index:
a negative index counts from the end of the array. -/
def jsSliceTo {α : Type} (xs : List α) (e : Int) : List α :=
  if e < 0 then xs.take (xs.length - e.natAbs) else xs.take e.toNat

/-- A scalar of the JSON request body, used to model the dynamic `typeof`
test on `limit` and `offset`.  Numeric fields are modelled as integers (the
UI sends integral page sizes; formatting of non-integral JavaScript numbers
inside the rewritten SQL is outside this model). -/
inductive ReqVal where
  | num (n : Int)
  | str (s : String)
  | bool (b : Bool)
  | null
deriving DecidableEq

/-- Models `typeof limit === 'number' ? limit : 1000` (api.ts line 127); an
absent field is `none`. -/
def effLimit : Option ReqVal → Int
  | some (.num n) => n
  | _ => 1000

/-- Models `typeof offset === 'number' ? offset : 0` (api.ts line 128). -/
def effOffset : Option ReqVal → Int
  | some (.num n) => n
  | _ => 0

/-- The three response shapes of the `/query` route that the claims are
about: a 400, a 404, or a 200 carrying rows, `rowCount` and `hasMore`. -/
inductive RouteResponse (α : Type) where
  | badRequest (msg : String)
  | notFound (msg : String)
  | ok (rows : List α) (rowCount : Int) (hasMore : Bool)
deriving DecidableEq

/-- Translation of the `/query` handler (api.ts lines 105-158, identical in
app/api/query/route.ts lines 26-76).  The remote execution
`service.execute` is abstracted as a pure function `exec` from the SQL text
to the list of decoded rows (`execute` reports `rowCount` as the length of
its row list).  The first component of the result collects the SQL strings
that were sent to the executor, in order; the registry is the list of live
session ids.  `!sessionId` and `!sql` are JavaScript falsiness tests, which
for string fields reject exactly `undefined`/missing and the empty
string. -/
def handleQuery {α : Type} (exec : String → List α) (sessions : List String)
    (sessionId sql : Option String) (limit offset : Option ReqVal) :
    List String × RouteResponse α :=
  match sessionId with
  | none => ([], .badRequest "Session ID is required")
  | some sid =>
    if sid = "" then ([], .badRequest "Session ID is required")
    else
      match sql with
      | none => ([], .badRequest "SQL query is required")
      | some s =>
        if s = "" then ([], .badRequest "SQL query is required")
        else if sessions.contains sid then
          if canPaginate s then
            let pageLimit := effLimit limit
            let pageOffset := effOffset offset
            let psql := paginatedSql s pageLimit pageOffset
            let rows := exec psql
            let hasMore := decide (pageLimit < (rows.length : Int))
            if hasMore then ([psql], .ok (jsSliceTo rows pageLimit) pageLimit true)
            else ([psql], .ok rows (rows.length : Int) false)
          else
            ([s], .ok (exec s) ((exec s).length : Int) false)
        else ([], .notFound "Session not found. Please reconnect.")

/-- Model of a thrown JavaScript `Error` as far as the `/connect` handler
inspects it: `message`, optional gRPC `details`, optional `cause.message`. -/
structure JSError where
  message : String
  details : Option String
  causeMessage : Option String
deriving DecidableEq

/-- Error-message extraction of the `/connect` catch block (api.ts lines
49-59): start from `error.message`, prefer `details` when present, else
`cause.message` when present. -/
def connectErrorMessage (e : JSError) : String :=
  match e.details with
  | some d => d
  | none =>
    match e.causeMessage with
    | some c => c
    | none => e.message

/-- Result of the `/connect` handler: a session id on success, or an HTTP
status with a message. -/
inductive ConnectResult where
  | ok (sessionId : String)
  | err (status : Nat) (msg : String)
deriving DecidableEq

/-- Translation of the `/connect` handler (api.ts lines 15-62) together
with `GizmoSQLService.connect` (gizmosql.ts lines 31-54).  Constructing the
client handle and the reachability round-trip (`getCatalogs`) are abstracted
into one `outcome`: `Except.error e` when the round-trip throws with `e`,
`Except.ok ()` when it succeeds.  The registry is the list of live session
ids; `crypto.randomUUID()` is abstracted as the `freshId` argument, which is
only consulted after a successful round-trip. -/
def handleConnect (connections : List String) (host : Option String)
    (outcome : Except JSError Unit) (freshId : String) :
    List String × ConnectResult :=
  match host with
  | none => (connections, .err 400 "Host is required")
  | some h =>
    if h = "" then (connections, .err 400 "Host is required")
    else
      match outcome with
      | .error e => (connections, .err 500 (connectErrorMessage e))
      | .ok _ => (freshId :: connections, .ok freshId)

/-- The universe of JavaScript values that `convertValue` (gizmosql.ts lines
178-248) can receive from the Arrow Flight SQL client: `null`/`undefined`,
booleans, numbers (modelled as exact rationals), strings, `BigInt`s, `Date`
objects (by their epoch-millisecond time value), `Uint8Array`s,
`Uint32Array`s, arrays, and plain objects (ordered key/value lists with
distinct keys). -/
inductive JSValue where
  | null
  | undefined
  | bool (b : Bool)
  | num (q : ℚ)
  | str (s : String)
  | bigint (i : Int)
  | date (ms : Int)
  | uint8array (bytes : List Nat)
  | uint32array (words : List Nat)
  | array (xs : List JSValue)
  | object (fields : List (String × JSValue))

/-- Truncation toward zero of a rational, as applied by JavaScript when a
number is used as an epoch-millisecond time value. -/
def jsTruncInt (q : ℚ) : Int :=
  if q < 0 then -((-q).floor) else q.floor

/-- Models `ToUint32` as used by `word >>> 0` (gizmosql.ts line 286) on the
values that can sit in a decimal word buffer: numbers are truncated toward
zero and taken modulo 2^32; `true` converts to 1; `null`, `undefined`,
`false` and everything whose `ToNumber` is `NaN` convert to 0.  (Coercion of
numeric strings is not modelled; no decimal word buffer carries strings.) -/
def toUint32 : JSValue → Nat
  | .num q => ((jsTruncInt q).emod 4294967296).toNat
  | .bool b => if b then 1 else 0
  | _ => 0

/-- JavaScript object property lookup, `undefined` when the key is absent. -/
def jsLookup (fields : List (String × JSValue)) (k : String) : JSValue :=
  match fields.find? (fun kv => kv.1 == k) with
  | some kv => kv.2
  | none => .undefined

/-- Strip a literal character pattern from the front of a list, returning
the remainder on success. -/
def stripLit : List Char → List Char → Option (List Char)
  | [], cs => some cs
  | _ :: _, [] => none
  | p :: ps, c :: cs => if p == c then stripLit ps cs else none

/-- Numeric value of a list of ASCII digits. -/
def digitsToNat (ds : List Char) : Nat :=
  ds.foldl (fun a c => a * 10 + (c.toNat - 48)) 0

/-- Attempt to match `Decimal\[?\d*e([+-]?\d+)\]?` (case folded to lower
case) at the head of the list, returning the signed captured scale
(gizmosql.ts line 255).  The pattern is deterministic: after the optional
`[` and a maximal digit run an `e` must follow, then an optional sign and at
least one digit. -/
def scaleFmtBracketAt (cs : List Char) : Option Int :=
  match stripLit "decimal".data cs with
  | none => none
  | some r1 =>
    let r2 := match r1 with
      | '[' :: t => t
      | _ => r1
    let r3 := r2.dropWhile (fun c => c.isDigit)
    match r3 with
    | 'e' :: r4 =>
      let sgnRest : Int × List Char :=
        match r4 with
        | '+' :: t => (1, t)
        | '-' :: t => (-1, t)
        | t => (1, t)
      let ds := sgnRest.2.takeWhile (fun c => c.isDigit)
      if ds.isEmpty then none else some (sgnRest.1 * (digitsToNat ds : Int))
    | _ => none

/-- Attempt to match `Decimal\d*\s*O\s*\d+\s*,\s*(\d+)\s*C` at the head of
the list, where `O`/`C` are the open/close delimiters — `(`/`)` for the
parenthesis format of gizmosql.ts line 260 and `<`/`>` for the angle-bracket
format of line 265 — returning the captured scale. -/
def scaleFmtDelimAt (openC closeC : Char) (cs : List Char) : Option Int :=
  match stripLit "decimal".data cs with
  | none => none
  | some r1 =>
    let r2 := (r1.dropWhile (fun c => c.isDigit)).dropWhile isJsWs
    match r2 with
    | c :: r3 =>
      if c == openC then
        let r4 := r3.dropWhile isJsWs
        let d1 := r4.takeWhile (fun c => c.isDigit)
        if d1.isEmpty then none
        else
          let r5 := (r4.dropWhile (fun c => c.isDigit)).dropWhile isJsWs
          match r5 with
          | ',' :: r6 =>
            let r7 := r6.dropWhile isJsWs
            let d2 := r7.takeWhile (fun c => c.isDigit)
            if d2.isEmpty then none
            else
              let r8 := (r7.dropWhile (fun c => c.isDigit)).dropWhile isJsWs
              match r8 with
              | cc :: _ => if cc == closeC then some (digitsToNat d2 : Int) else none
              | [] => none
          | _ => none
      else none
    | [] => none

/-- Leftmost-match search: try the matcher at every start position, as the
regular-expression engine does, and return the first capture. -/
def findScale (p : List Char → Option Int) : List Char → Option Int
  | [] => p []
  | c :: cs =>
    match p (c :: cs) with
    | some n => some n
    | none => findScale p cs

/-- Translation of `extractDecimalScale` (gizmosql.ts lines 250-273): try
the `Decimal[..e±N]` exponent format, then `DecimalW(P, S)`, then
`DecimalW<P, S>`, defaulting to scale 0.  All three patterns carry the
case-insensitive flag, so the input is case folded first. -/
def extractDecimalScale (fieldType : String) : Int :=
  let cs := fieldType.data.map Char.toLower
  match findScale scaleFmtBracketAt cs with
  | some s => s
  | none =>
    match findScale (scaleFmtDelimAt '(' ')') cs with
    | some s => s
    | none =>
      match findScale (scaleFmtDelimAt '<' '>') cs with
      | some s => s
      | none => 0

/-- Models `Number.MAX_SAFE_INTEGER`. -/
def maxSafeRat : ℚ := ((2 ^ 53 - 1 : ℕ) : ℚ)

/-- Models `Math.abs` on the rational idealization of JavaScript numbers. -/
def mathAbs (q : ℚ) : ℚ :=
  if q < 0 then -q else q

/-- Models `Number.isFinite` on the rational idealization: a double is
finite exactly when its magnitude stays below 2^1024 (rounding at the very
boundary is not modelled; no claim probes it). -/
def jsFinite (q : ℚ) : Bool :=
  decide (mathAbs q < ((2 ^ 1024 : ℕ) : ℚ))

/-- Division of an integer by `10^scale` on the rational idealization of
JavaScript numbers (`Number(bigValue) / Math.pow(10, scale)`, gizmosql.ts
lines 303-304).  Computed with `Rat.divInt` over integer powers so that the
kernel can evaluate it; the value equals `(n : ℚ) / 10 ^ scale`. -/
def jsDivPow10 (n : Int) (scale : Int) : ℚ :=
  if 0 ≤ scale then Rat.divInt n ((10 : Int) ^ scale.toNat)
  else Rat.divInt (n * (10 : Int) ^ (-scale).toNat) 1

/-- The little-endian word composition loop of `decimalWordsToNumber`
(gizmosql.ts lines 281-288): starting from the most significant word,
shift the accumulator left 32 bits and or in the next word taken as
an unsigned 32-bit integer (`word >>> 0`); an index outside the list reads
as 0 (`?? 0`). -/
def composeWords (words : List Nat) (wordCount : Nat) : Nat :=
  (List.range wordCount).reverse.foldl
    (fun acc i => (acc <<< 32) ||| (words.getD i 0 % 4294967296)) 0

/-- The common tail of `decimalWordsToNumber` (gizmosql.ts lines 312-317):
return the undivided integer as a native number when finite and strictly
inside `Number.MAX_SAFE_INTEGER`, else its decimal string. -/
def decimalTail (bigValue : Int) : JSValue :=
  if jsFinite (bigValue : ℚ) ∧ mathAbs (bigValue : ℚ) < maxSafeRat then .num ((bigValue : ℚ))
  else .str (toString bigValue)

/-- Translation of `decimalWordsToNumber` (gizmosql.ts lines 275-318):
compose the 32-bit words little-endian, interpret the result as a
two's-complement integer of width `32 * wordCount` (test the sign bit with
a bitwise and; subtract `2 ^ (32 * wordCount)` when set), then, when the
scale is nonzero, divide by `10 ^ scale` and return the quotient as a
native number whenever it is finite; in all remaining cases fall through to
`decimalTail`. -/
def decimalWordsToNumber (words : List Nat) (wordCount : Nat) (scale : Int) : JSValue :=
  if wordCount = 0 then .num 0
  else
    let bigValue0 := composeWords words wordCount
    let signBit := (1 : Nat) <<< (32 * wordCount - 1)
    let bigValue : Int :=
      if bigValue0 &&& signBit ≠ 0 then (bigValue0 : Int) - (2 : Int) ^ (32 * wordCount)
      else (bigValue0 : Int)
    if scale ≠ 0 then
      if jsFinite (jsDivPow10 bigValue scale) then .num (jsDivPow10 bigValue scale)
      else decimalTail bigValue
    else decimalTail bigValue

/-- Civil calendar date (proleptic Gregorian) of a day count relative to
1970-01-01, following the standard era-based conversion used by JavaScript
`Date`: returns (year, month, day). -/
def civilFromDays (z0 : Int) : Int × Nat × Nat :=
  let z := z0 + 719468
  let era : Int := z.fdiv 146097
  let doe : Nat := (z - era * 146097).toNat
  let yoe : Nat := (doe - doe / 1460 + doe / 36524 - doe / 146096) / 365
  let doy : Nat := doe - (365 * yoe + yoe / 4 - yoe / 100)
  let mp : Nat := (5 * doy + 2) / 153
  let d : Nat := doy - (153 * mp + 2) / 5 + 1
  let m : Nat := if mp < 10 then mp + 3 else mp - 9
  let y : Int := (yoe : Int) + era * 400 + (if m ≤ 2 then 1 else 0)
  (y, m, d)

/-- Zero-padded two-digit decimal field. -/
def pad2 (n : Nat) : String :=
  if n < 10 then "0" ++ toString n else toString n

/-- Zero-padded three-digit decimal field. -/
def pad3 (n : Nat) : String :=
  if n < 10 then "00" ++ toString n
  else if n < 100 then "0" ++ toString n
  else toString n

/-- Zero-padded four-digit decimal field. -/
def pad4 (n : Nat) : String :=
  if n < 10 then "000" ++ toString n
  else if n < 100 then "00" ++ toString n
  else if n < 1000 then "0" ++ toString n
  else toString n

/-- The date part `YYYY-MM-DD` of an ISO-8601 string.  Years are rendered
with four digits, which covers every value the guarded conversion paths can
produce (1970..9999); the expanded-year format of `toISOString` for dates
outside 0000..9999 is not modelled. -/
def isoDateStr (y : Int) (m d : Nat) : String :=
  pad4 y.toNat ++ "-" ++ pad2 m ++ "-" ++ pad2 d

/-- Models `new Date(ms).toISOString()`: an ISO-8601 UTC datetime string
with millisecond precision. -/
def isoDatetime (ms : Int) : String :=
  let days := ms.fdiv 86400000
  let msod := (ms - days * 86400000).toNat
  let c := civilFromDays days
  isoDateStr c.1 c.2.1 c.2.2 ++ "T" ++ pad2 (msod / 3600000) ++ ":" ++
    pad2 (msod % 3600000 / 60000) ++ ":" ++ pad2 (msod % 60000 / 1000) ++ "." ++
    pad3 (msod % 1000) ++ "Z"

/-- Models `new Date(ms).toISOString().split('T')[0]`: the date part only. -/
def isoDateOnly (ms : Int) : String :=
  let c := civilFromDays (ms.fdiv 86400000)
  isoDateStr c.1 c.2.1 c.2.2

/-- Does the declared column type name contain "decimal" case-insensitively?
Models `fieldType?.toLowerCase().includes('decimal')`; an absent type string
is falsy. -/
def decimalTypeB : Option String → Bool
  | some t => jsIncludes (lowerStr t) "decimal"
  | none => false

/-- The decimal-word-buffer test of the object branch (gizmosql.ts lines
230-234): the object has between 1 and 8 keys, every key matches `^\d+$`,
and the declared type name contains "decimal". -/
def isDecimalWordsCase (fields : List (String × JSValue)) (fieldType : Option String) : Bool :=
  (decide (0 < fields.length) && decide (fields.length ≤ 8) &&
    (fields.map (fun kv => kv.1)).all isDigitKey) && decimalTypeB fieldType

/-- Word extraction for an object-shaped decimal buffer (gizmosql.ts line
284): for each index below the key count, look up the property named by the
index and convert it with `ToUint32`; absent properties read as 0. -/
def objectWords (fields : List (String × JSValue)) : List Nat :=
  (List.range fields.length).map (fun i => toUint32 (jsLookup fields (toString i)))

mutual

/-- Nesting depth of a JavaScript value; used as fuel for the translation of
`convertValue`. -/
def jsDepth : JSValue → Nat
  | .array xs => jsDepthList xs + 1
  | .object fs => jsDepthFields fs + 1
  | _ => 1

/-- Depth of the deepest element of a list of values. -/
def jsDepthList : List JSValue → Nat
  | [] => 0
  | x :: xs => max (jsDepth x) (jsDepthList xs)

/-- Depth of the deepest field value of an object. -/
def jsDepthFields : List (String × JSValue) → Nat
  | [] => 0
  | (_, v) :: fs => max (jsDepth v) (jsDepthFields fs)

end

/-- Fueled translation of `convertValue` (gizmosql.ts lines 178-248).  The
sequential `instanceof`/`typeof` checks of the source become one match per
value constructor; within the number and object branches the residual tests
are kept in source order.  Recursion into arrays and object fields passes no
field type, exactly as the source calls `this.convertValue(v)` with a single
argument.  Fuel at least the nesting depth `jsDepth` makes the scanner
total; every recursive call is on a value of strictly smaller depth, so fuel
is never exhausted when starting from `jsDepth`.

Two inlined facts about the source are used: `Object.entries` of a
`Uint32Array` yields index/value pairs whose values are numbers (on which
`convertValue` without a field type is the identity), and in the date-only
branch `new Date(value * 86400000).toISOString().split('T')[0]` depends only
on the integer part of the positive `value`, so the embedded term multiplies
after truncation. -/
def conv : Nat → JSValue → Option String → JSValue
  | 0, v, _ => v
  | fuel + 1, v, fieldType =>
    match v with
    | .null => .null
    | .undefined => .null
    | .bool b => .bool b
    | .bigint i => .str (toString i)
    | .date ms => .str (isoDatetime ms)
    | .num q =>
      match fieldType with
      | some ft =>
        if jsIncludes (lowerStr ft) "date" || jsIncludes (lowerStr ft) "timestamp" then
          if 86400000 < q ∧ q < 253402300800000 then .str (isoDatetime (jsTruncInt q))
          else if 0 < q ∧ q < 100000 then .str (isoDateOnly (jsTruncInt q * 86400000))
          else .num q
        else .num q
      | none => .num q
    | .str s => .str s
    | .uint8array bytes => .str ("<binary: " ++ toString bytes.length ++ " bytes>")
    | .array xs => .array (xs.map (fun x => conv fuel x none))
    | .uint32array ws =>
      if decimalTypeB fieldType then
        decimalWordsToNumber ws ws.length (extractDecimalScale (fieldType.getD ""))
      else
        .object ((List.range ws.length).map
          (fun i => (toString i, JSValue.num ((ws.getD i 0 % 4294967296 : ℕ) : ℚ))))
    | .object fields =>
      if isDecimalWordsCase fields fieldType then
        decimalWordsToNumber (objectWords fields) fields.length
          (extractDecimalScale (fieldType.getD ""))
      else
        .object (fields.map (fun kv => (kv.1, conv fuel kv.2 none)))

/-- The value normalizer: `convertValue` of gizmosql.ts applied with enough
fuel for the value's nesting depth. -/
def convertValue (v : JSValue) (fieldType : Option String) : JSValue :=
  conv (jsDepth v) v fieldType

/-- Specification-side little-endian composition: the 32·k-bit natural
number with the given 32-bit words as base-2^32 digits. -/
def wordsVal (words : List Nat) (k : Nat) : Nat :=
  ((List.range k).map (fun i => words.getD i 0 % 4294967296 * 2 ^ (32 * i))).sum

/-- Specification-side two's-complement reading of the composed words:
subtract `2 ^ (32 * k)` exactly when the top bit is set, that is when the
composed value is at least `2 ^ (32 * k - 1)`. -/
def twosVal (words : List Nat) (k : Nat) : Int :=
  if wordsVal words k < 2 ^ (32 * k - 1) then (wordsVal words k : Int)
  else (wordsVal words k : Int) - (2 : Int) ^ (32 * k)

/-- Concrete executor used by the pagination witness: three rows for the
rewritten page query of `SELECT 1` with limit 2, no rows otherwise. -/
def execSample (q : String) : List Nat :=
  if q = paginatedSql "SELECT 1" 2 0 then [10, 20, 30] else []

/-- Claim C1: `canPaginate` holds exactly when the first whitespace-delimited
token of the input — after trimming, removing block comments, removing line
comments and trimming again — upper-cases to `SELECT`, `WITH`, `TABLE` or
`VALUES`; comments before the first token do not affect classification, and
statements starting with `INSERT`, `EXPLAIN` or `CREATE` are not
paginatable. -/
theorem claim_C1 :
    (∀ s : String, canPaginate s = true ↔ firstSqlKeyword s ∈ paginatableKeywords)
    ∧ canPaginate "-- note\nSELECT 1" = true
    ∧ canPaginate "/* x */ SELECT 1" = true
    ∧ canPaginate "  with recursive t as (select 1) select * from t" = true
    ∧ canPaginate "TABLE t" = true
    ∧ canPaginate "VALUES (1, 2)" = true
    ∧ canPaginate "INSERT INTO t VALUES (1)" = false
    ∧ canPaginate "EXPLAIN SELECT 1" = false
    ∧ canPaginate "CREATE TABLE t (x INT)" = false := by
  refine ⟨fun s => ?_, by decide, by decide, by decide, by decide, by decide, by decide,
    by decide, by decide⟩
  simp [canPaginate, firstSqlKeyword]

/-- Claim C2: for a paginatable statement executed through a live session
with numeric limit `L` and offset `O`, the handler sends exactly one SQL
string to the executor, namely the original statement stripped of trailing
semicolons and wrapped as `SELECT * FROM (...) AS __paginated_query LIMIT
L+1 OFFSET O` (no separate COUNT query); when that execution returns `R`
rows the response carries exactly `min R L` rows with `hasMore = (R > L)`.
A non-paginatable statement is executed unmodified with `hasMore = false`. -/
theorem claim_C2 {α : Type} (exec : String → List α) (sessions : List String)
    (sid s : String) (L O : ℕ)
    (hsid : sid ∈ sessions) (hsidne : sid ≠ "")
    (hp : canPaginate s = true) :
    paginatedSql s (L : Int) (O : Int) =
        "SELECT * FROM (" ++ stripTrailingSemis s ++ ") AS __paginated_query LIMIT " ++
          toString ((L : Int) + 1) ++ " OFFSET " ++ toString (O : Int)
    ∧ handleQuery exec sessions (some sid) (some s) (some (.num L)) (some (.num O)) =
        ([paginatedSql s (L : Int) (O : Int)],
          .ok ((exec (paginatedSql s (L : Int) (O : Int))).take L)
            ((min ((exec (paginatedSql s (L : Int) (O : Int))).length) L : ℕ) : Int)
            (decide ((L : Int) < ((exec (paginatedSql s (L : Int) (O : Int))).length : Int))))
    ∧ (∀ s' : String, canPaginate s' = false → s' ≠ "" →
        handleQuery exec sessions (some sid) (some s') (some (.num L)) (some (.num O)) =
          ([s'], .ok (exec s') (((exec s').length : ℕ) : Int) false)) := by
  have hcontains : sessions.contains sid = true := List.elem_iff.mpr hsid
  have hs : s ≠ "" := by
    rintro rfl
    exact absurd hp (by decide)
  refine ⟨rfl, ?_, ?_⟩
  · simp only [handleQuery, if_neg hsidne, if_neg hs, hcontains, if_true, hp, effLimit,
      effOffset]
    by_cases hL : (L : Int) < ((exec (paginatedSql s (L : Int) (O : Int))).length : Int)
    · have hLn : L < (exec (paginatedSql s (L : Int) (O : Int))).length := by exact_mod_cast hL
      rw [if_pos (decide_eq_true hL)]
      have h1 : jsSliceTo (exec (paginatedSql s (L : Int) (O : Int))) (L : Int) =
          (exec (paginatedSql s (L : Int) (O : Int))).take L := by
        rw [jsSliceTo, if_neg (not_lt.mpr (Int.natCast_nonneg L)), Int.toNat_natCast]
      rw [h1, min_eq_right hLn.le, decide_eq_true hL]
    · have hLn : (exec (paginatedSql s (L : Int) (O : Int))).length ≤ L := by omega
      rw [if_neg (by simpa using hLn)]
      rw [List.take_of_length_le hLn, min_eq_left hLn, decide_eq_false hL]
  · intro s' hps' hs'
    simp only [handleQuery, if_neg hsidne, if_neg hs', hcontains, if_true, hps',
      Bool.false_eq_true, if_false]

/-- Witness for claim C2 at a concrete input: `SELECT 1` with limit 2 and
offset 0 against an executor returning three rows yields exactly the two
first rows and `hasMore = true`. -/
theorem claim_C2_witness :
    canPaginate "SELECT 1" = true ∧
    handleQuery execSample ["s1"] (some "s1") (some "SELECT 1")
        (some (.num 2)) (some (.num 0)) =
      ([paginatedSql "SELECT 1" 2 0], .ok [10, 20] 2 true) := by
  refine ⟨by decide, ?_⟩
  have h := (claim_C2 execSample ["s1"] "s1" "SELECT 1" 2 0 (by decide) (by decide)
    (by decide)).2.1
  exact h.trans (by decide)

/-- Claim C6 (corrected): a request whose `sql` field is absent or the empty
string is rejected with 400 before any classification or execution; the
registry of executed statements stays empty. -/
theorem claim_C6_amended {α : Type} (exec : String → List α) (sessions : List String)
    (sid : String) (limit offset : Option ReqVal) (hsid : sid ≠ "") :
    handleQuery exec sessions (some sid) (some "") limit offset =
        ([], .badRequest "SQL query is required")
    ∧ handleQuery exec sessions (some sid) none limit offset =
        ([], .badRequest "SQL query is required") := by
  constructor
  · simp [handleQuery, if_neg hsid]
  · simp [handleQuery, if_neg hsid]

/-- Witness for the amended claim C6 at a concrete input. -/
theorem claim_C6_witness :
    handleQuery (fun _ => ([] : List ℕ)) ["s1"] (some "s1") (some "") none none =
        ([], .badRequest "SQL query is required")
    ∧ handleQuery (fun _ => ([] : List ℕ)) ["s1"] (some "s1") none none none =
        ([], .badRequest "SQL query is required") :=
  claim_C6_amended (fun _ => ([] : List ℕ)) ["s1"] "s1" none none (by decide)

/-- Counterexample to claim C6 as stated: a whitespace-only (but non-empty)
`sql` field is not rejected; the handler classifies it as non-paginatable,
sends the single space to the executor, and answers 200 with `hasMore =
false` rather than 400. -/
theorem claim_C6_cex :
    handleQuery (fun _ => ([] : List ℕ)) ["s1"] (some "s1") (some " ") none none =
        ([" "], RouteResponse.ok [] 0 false)
    ∧ RouteResponse.ok ([] : List ℕ) 0 false ≠ RouteResponse.badRequest "SQL query is required" :=
  ⟨by decide, by decide⟩

/-- Claim C7: a requested `limit`/`offset` is honored exactly when the field
is present and of numeric type, the defaults 1000 and 0 apply otherwise, and
the two fields are handled independently: the handler behaves exactly as if
each field were replaced by its own effective value. -/
theorem claim_C7 :
    (∀ n : Int, effLimit (some (.num n)) = n ∧ effOffset (some (.num n)) = n)
    ∧ (effLimit none = 1000 ∧ effOffset none = 0)
    ∧ (∀ s : String, effLimit (some (.str s)) = 1000 ∧ effOffset (some (.str s)) = 0)
    ∧ (∀ b : Bool, effLimit (some (.bool b)) = 1000 ∧ effOffset (some (.bool b)) = 0)
    ∧ (effLimit (some .null) = 1000 ∧ effOffset (some .null) = 0)
    ∧ (∀ (α : Type) (exec : String → List α) (sessions : List String)
        (sessionId sql : Option String) (limit offset : Option ReqVal),
        handleQuery exec sessions sessionId sql limit offset =
          handleQuery exec sessions sessionId sql
            (some (.num (effLimit limit))) (some (.num (effOffset offset)))) :=
  ⟨fun _ => ⟨rfl, rfl⟩, ⟨rfl, rfl⟩, fun _ => ⟨rfl, rfl⟩, fun _ => ⟨rfl, rfl⟩, ⟨rfl, rfl⟩,
    fun _ _ _ _ _ _ _ => rfl⟩

/-- Claim C9: a failed connect (missing host or a failed reachability
round-trip) returns an error response and leaves the session registry
unchanged; a session id is inserted exactly when the round-trip succeeds,
and the error response for a failed round-trip carries status 500 with the
extracted error message. -/
theorem claim_C9 :
    (∀ (connections : List String) (host : Option String) (e : JSError) (freshId : String),
        (handleConnect connections host (Except.error e) freshId).1 = connections)
    ∧ (∀ (connections : List String) (h : String) (e : JSError) (freshId : String),
        h ≠ "" →
        handleConnect connections (some h) (Except.error e) freshId =
          (connections, .err 500 (connectErrorMessage e)))
    ∧ (∀ (connections : List String) (e : JSError) (freshId : String),
        handleConnect connections none (Except.error e) freshId =
          (connections, .err 400 "Host is required"))
    ∧ (∀ (connections : List String) (h : String) (freshId : String),
        h ≠ "" →
        handleConnect connections (some h) (Except.ok ()) freshId =
          (freshId :: connections, .ok freshId)) := by
  refine ⟨?_, ?_, ?_, ?_⟩
  · intro connections host e freshId
    cases host with
    | none => rfl
    | some h =>
      by_cases hh : h = "" <;> simp [handleConnect, hh]
  · intro connections h e freshId hh
    simp [handleConnect, hh]
  · intro connections e freshId
    rfl
  · intro connections h freshId hh
    simp [handleConnect, hh]

/-- Witness for claim C9 at concrete inputs: a failed round-trip against a
nonempty registry leaves the registry as it was and surfaces the gRPC
detail text; a successful one inserts the fresh id. -/
theorem claim_C9_witness :
    (handleConnect ["old"] (some "db.example.com")
        (Except.error ⟨"outer", some "detail text", none⟩) "fresh").1 = ["old"]
    ∧ handleConnect ["old"] (some "db.example.com")
        (Except.error ⟨"outer", some "detail text", none⟩) "fresh" =
        (["old"], .err 500 "detail text")
    ∧ handleConnect ["old"] (some "db.example.com") (Except.ok ()) "fresh" =
        (["fresh", "old"], .ok "fresh") :=
  ⟨claim_C9.1 ["old"] (some "db.example.com") ⟨"outer", some "detail text", none⟩ "fresh",
    claim_C9.2.1 ["old"] "db.example.com" ⟨"outer", some "detail text", none⟩ "fresh"
      (by decide),
    claim_C9.2.2.2 ["old"] "db.example.com" "fresh" (by decide)⟩

/-- Every JavaScript value has positive nesting depth. -/
theorem jsDepth_pos (v : JSValue) : 0 < jsDepth v := by
  cases v <;> simp [jsDepth]

/-- An element of a list is at most as deep as the list. -/
theorem jsDepthList_le {x : JSValue} {xs : List JSValue} (h : x ∈ xs) :
    jsDepth x ≤ jsDepthList xs := by
  induction xs with
  | nil => cases h
  | cons y ys ih =>
    rcases List.mem_cons.mp h with rfl | h2
    · rw [jsDepthList]
      exact le_max_left _ _
    · rw [jsDepthList]
      exact le_trans (ih h2) (le_max_right _ _)

/-- A field value of an object is at most as deep as the field list. -/
theorem jsDepthFields_le {kv : String × JSValue} {fs : List (String × JSValue)}
    (h : kv ∈ fs) : jsDepth kv.2 ≤ jsDepthFields fs := by
  induction fs with
  | nil => cases h
  | cons y ys ih =>
    obtain ⟨k, v⟩ := y
    rcases List.mem_cons.mp h with rfl | h2
    · rw [jsDepthFields]
      exact le_max_left _ _
    · rw [jsDepthFields]
      exact le_trans (ih h2) (le_max_right _ _)

/-- The fueled scanner `conv` does not depend on the exact amount of fuel,
as long as the fuel covers the nesting depth of the value. -/
theorem conv_fuel_congr : ∀ (f1 : ℕ) (v : JSValue) (f2 : ℕ) (ft : Option String),
    jsDepth v ≤ f1 → jsDepth v ≤ f2 → conv f1 v ft = conv f2 v ft := by
  intro f1
  induction f1 with
  | zero =>
    intro v f2 ft h1 _
    exact absurd h1 (by have := jsDepth_pos v; omega)
  | succ f ih =>
    intro v f2 ft h1 h2
    have hpos := jsDepth_pos v
    obtain ⟨g, rfl⟩ : ∃ g, f2 = g + 1 := ⟨f2 - 1, by omega⟩
    cases v with
    | null => rfl
    | undefined => rfl
    | bool b => rfl
    | num q => rfl
    | str s => rfl
    | bigint i => rfl
    | date ms => rfl
    | uint8array bs => rfl
    | uint32array ws => rfl
    | array xs =>
      have h0 : ∀ h : ℕ, conv (h + 1) (.array xs) ft =
          .array (xs.map fun x => conv h x none) := fun _ => rfl
      rw [h0 f, h0 g]
      have hda : jsDepth (JSValue.array xs) = jsDepthList xs + 1 := rfl
      congr 1
      refine List.map_congr_left fun x hx => ?_
      have hd := jsDepthList_le hx
      exact ih x g none (by omega) (by omega)
    | object fields =>
      have h0 : ∀ h : ℕ, conv (h + 1) (.object fields) ft =
          if isDecimalWordsCase fields ft then
            decimalWordsToNumber (objectWords fields) fields.length
              (extractDecimalScale (ft.getD ""))
          else .object (fields.map fun kv => (kv.1, conv h kv.2 none)) := fun _ => rfl
      rw [h0 f, h0 g]
      have hda : jsDepth (JSValue.object fields) = jsDepthFields fields + 1 := rfl
      by_cases hc : isDecimalWordsCase fields ft = true
      · rw [if_pos hc, if_pos hc]
      · rw [if_neg hc, if_neg hc]
        congr 1
        refine List.map_congr_left fun kv hkv => ?_
        have hd := jsDepthFields_le hkv
        exact congrArg (fun z => (kv.1, z)) (ih kv.2 g none (by omega) (by omega))

/-- Unfolding of the normalizer on arrays: every element is normalized with
no field type. -/
theorem convertValue_array (xs : List JSValue) (ft : Option String) :
    convertValue (.array xs) ft = .array (xs.map fun x => convertValue x none) := by
  have h0 : convertValue (.array xs) ft =
      .array (xs.map fun x => conv (jsDepthList xs) x none) := rfl
  rw [h0]
  congr 1
  refine List.map_congr_left fun x hx => ?_
  exact conv_fuel_congr (jsDepthList xs) x (jsDepth x) none (jsDepthList_le hx) le_rfl

/-- Unfolding of the normalizer on plain objects: an object is decoded as a
decimal word buffer exactly under `isDecimalWordsCase`; otherwise it is
normalized field by field with no field type. -/
theorem convertValue_object (fields : List (String × JSValue)) (ft : Option String) :
    convertValue (.object fields) ft =
      if isDecimalWordsCase fields ft then
        decimalWordsToNumber (objectWords fields) fields.length
          (extractDecimalScale (ft.getD ""))
      else .object (fields.map fun kv => (kv.1, convertValue kv.2 none)) := by
  have h0 : convertValue (.object fields) ft =
      if isDecimalWordsCase fields ft then
        decimalWordsToNumber (objectWords fields) fields.length
          (extractDecimalScale (ft.getD ""))
      else .object (fields.map fun kv => (kv.1, conv (jsDepthFields fields) kv.2 none)) := rfl
  rw [h0]
  by_cases hc : isDecimalWordsCase fields ft = true
  · rw [if_pos hc, if_pos hc]
  · rw [if_neg hc, if_neg hc]
    congr 1
    refine List.map_congr_left fun kv hkv => ?_
    exact congrArg (fun z => (kv.1, z))
      (conv_fuel_congr (jsDepthFields fields) kv.2 (jsDepth kv.2) none
        (jsDepthFields_le hkv) le_rfl)

/-- Unfolding of the normalizer on numbers with a declared type: the
date/timestamp heuristic of gizmosql.ts lines 193-206. -/
theorem convertValue_num (q : ℚ) (ft : String) :
    convertValue (.num q) (some ft) =
      if jsIncludes (lowerStr ft) "date" || jsIncludes (lowerStr ft) "timestamp" then
        if 86400000 < q ∧ q < 253402300800000 then .str (isoDatetime (jsTruncInt q))
        else if 0 < q ∧ q < 100000 then .str (isoDateOnly (jsTruncInt q * 86400000))
        else .num q
      else .num q := rfl

/-- Unfolding of the normalizer on Uint32Array values. -/
theorem convertValue_u32 (ws : List Nat) (ft : Option String) :
    convertValue (.uint32array ws) ft =
      if decimalTypeB ft then
        decimalWordsToNumber ws ws.length (extractDecimalScale (ft.getD ""))
      else
        .object ((List.range ws.length).map
          (fun i => (toString i, JSValue.num ((ws.getD i 0 % 4294967296 : ℕ) : ℚ)))) := rfl

/-- Idempotence of the normalizer with no type context, by induction on the
nesting depth: every output of `convertValue · none` is a fixed point of
`convertValue · none`. -/
theorem convertValue_idem_aux : ∀ (n : ℕ) (v : JSValue), jsDepth v ≤ n →
    convertValue (convertValue v none) none = convertValue v none := by
  intro n
  induction n with
  | zero =>
    intro v h
    exact absurd h (by have := jsDepth_pos v; omega)
  | succ n ih =>
    intro v h
    cases v with
    | null => rfl
    | undefined => rfl
    | bool b => rfl
    | num q => rfl
    | str s => rfl
    | bigint i => rfl
    | date ms => rfl
    | uint8array bs => rfl
    | uint32array ws =>
      have hInner : convertValue (.uint32array ws) none =
          .object ((List.range ws.length).map
            (fun i => (toString i, JSValue.num ((ws.getD i 0 % 4294967296 : ℕ) : ℚ)))) := rfl
      rw [hInner, convertValue_object]
      rw [if_neg (by simp [isDecimalWordsCase, decimalTypeB])]
      congr 1
      rw [List.map_map]
      exact List.map_congr_left fun i _ => rfl
    | array xs =>
      rw [convertValue_array, convertValue_array]
      congr 1
      rw [List.map_map]
      refine List.map_congr_left fun x hx => ?_
      have hd : jsDepth x ≤ n := by
        have h1 := jsDepthList_le hx
        have h2 : jsDepth (JSValue.array xs) = jsDepthList xs + 1 := rfl
        omega
      exact ih x hd
    | object fields =>
      rw [convertValue_object]
      rw [if_neg (by simp [isDecimalWordsCase, decimalTypeB])]
      rw [convertValue_object]
      rw [if_neg (by simp [isDecimalWordsCase, decimalTypeB])]
      congr 1
      rw [List.map_map]
      refine List.map_congr_left fun kv hkv => ?_
      have hd : jsDepth kv.2 ≤ n := by
        have h1 := jsDepthFields_le hkv
        have h2 : jsDepth (JSValue.object fields) = jsDepthFields fields + 1 := rfl
        omega
      exact congrArg (fun z => (kv.1, z)) (ih kv.2 hd)

/-- Claim C8: the value normalizer is total (it is a total function by
construction) and idempotent in the type-free context: applying it twice
equals applying it once, and already-normalized plain values — strings,
numbers, `null`, booleans — are returned unchanged. -/
theorem claim_C8 :
    (∀ v : JSValue, convertValue (convertValue v none) none = convertValue v none)
    ∧ (∀ s : String, convertValue (.str s) none = .str s)
    ∧ (∀ q : ℚ, convertValue (.num q) none = .num q)
    ∧ convertValue .null none = .null
    ∧ (∀ b : Bool, convertValue (.bool b) none = .bool b) :=
  ⟨fun v => convertValue_idem_aux (jsDepth v) v le_rfl, fun _ => rfl, fun _ => rfl, rfl,
    fun _ => rfl⟩

/-- Claim C10: recursion into arrays and structs passes no declared type, so
the type-dependent rules (date heuristic, decimal decoding) never fire on
nested values; in particular the epoch-day value 19000 nested in an array or
struct of a `Date32` column stays a plain number. -/
theorem claim_C10 :
    (∀ (xs : List JSValue) (ft : Option String),
        convertValue (.array xs) ft = .array (xs.map fun x => convertValue x none))
    ∧ (∀ (fields : List (String × JSValue)) (ft : Option String),
        isDecimalWordsCase fields ft = false →
        convertValue (.object fields) ft =
          .object (fields.map fun kv => (kv.1, convertValue kv.2 none)))
    ∧ convertValue (.array [.num 19000]) (some "Date32") = .array [.num 19000]
    ∧ convertValue (.object [("a", .num 19000)]) (some "Date32") =
        .object [("a", .num 19000)] := by
  refine ⟨convertValue_array, ?_, ?_, ?_⟩
  · intro fields ft hc
    rw [convertValue_object, if_neg (by simp [hc])]
  · rw [convertValue_array]
    rfl
  · rw [convertValue_object, if_neg (by decide)]
    rfl

/-- Witness for claim C10 at a concrete input: a struct with a
non-numeric-keyed field under a `Date32` column is normalized field-wise. -/
theorem claim_C10_witness :
    isDecimalWordsCase [("a", JSValue.num 19000)] (some "Date32") = false
    ∧ convertValue (.object [("a", JSValue.num 19000)]) (some "Date32") =
        .object ([("a", JSValue.num 19000)].map fun kv => (kv.1, convertValue kv.2 none)) :=
  ⟨by decide, claim_C10.2.1 [("a", JSValue.num 19000)] (some "Date32") (by decide)⟩

/-- Claim C4: a numeric cell on a column whose declared type name contains
"date" or "timestamp" (case-insensitively) becomes an ISO-8601 datetime
string when it lies strictly between 86400000 and 253402300800000 (epoch
milliseconds), else an ISO-8601 date-only string when strictly between 0 and
100000 (epoch days), else it is returned unchanged.  In particular 19000 on
a `Date32` column is 1970-01-01 plus 19000 days, namely 2022-01-08, and
1700000000000 on a `Timestamp` column is 2023-11-14T22:13:20.000Z. -/
theorem claim_C4 :
    (∀ (q : ℚ) (ft : String),
        (jsIncludes (lowerStr ft) "date" || jsIncludes (lowerStr ft) "timestamp") = true →
        convertValue (.num q) (some ft) =
          if 86400000 < q ∧ q < 253402300800000 then .str (isoDatetime (jsTruncInt q))
          else if 0 < q ∧ q < 100000 then .str (isoDateOnly (jsTruncInt q * 86400000))
          else .num q)
    ∧ convertValue (.num 19000) (some "Date32") = .str "2022-01-08"
    ∧ convertValue (.num 1700000000000) (some "Timestamp(Millisecond, None)") =
        .str "2023-11-14T22:13:20.000Z"
    ∧ convertValue (.num 1700000000000) (some "Timestamp") =
        .str "2023-11-14T22:13:20.000Z"
    ∧ convertValue (.num 500000) (some "Date32") = .num 500000 := by
  refine ⟨?_, rfl, rfl, rfl, rfl⟩
  intro q ft h
  rw [convertValue_num, if_pos h]

/-- Witness for claim C4 at a concrete input: `Date32` matches the date
heuristic and 19000 falls in the epoch-day branch. -/
theorem claim_C4_witness :
    (jsIncludes (lowerStr "Date32") "date" || jsIncludes (lowerStr "Date32") "timestamp") = true
    ∧ convertValue (.num 19000) (some "Date32") =
        if 86400000 < (19000 : ℚ) ∧ (19000 : ℚ) < 253402300800000 then
          .str (isoDatetime (jsTruncInt 19000))
        else if 0 < (19000 : ℚ) ∧ (19000 : ℚ) < 100000 then
          .str (isoDateOnly (jsTruncInt 19000 * 86400000))
        else .num 19000 :=
  ⟨by decide, claim_C4.1 19000 "Date32" (by decide)⟩

/-- Oring a 32-bit word below a value shifted left by 32 bits is plain
addition. -/
theorem shiftOr_eq_add (a w : ℕ) (hw : w < 2 ^ 32) :
    (a <<< 32) ||| w = 2 ^ 32 * a + w := by
  apply Nat.eq_of_testBit_eq
  intro j
  rw [Nat.testBit_lor, Nat.testBit_shiftLeft, Nat.testBit_mul_pow_two_add a hw j]
  by_cases hj : j < 32
  · have h1 : ¬ (32 ≤ j) := by omega
    simp [hj, h1]
  · have h1 : (32 ≤ j) := by omega
    have h2 : w < 2 ^ j := lt_of_lt_of_le hw (Nat.pow_le_pow_right (by omega) h1)
    simp [hj, h1, Nat.testBit_lt_two_pow h2]

/-- The composition loop with an arbitrary accumulator. -/
theorem composeWords_aux (words : List Nat) : ∀ (k a : ℕ),
    (List.range k).reverse.foldl
        (fun acc i => (acc <<< 32) ||| (words.getD i 0 % 4294967296)) a
      = a * 2 ^ (32 * k) + wordsVal words k := by
  intro k
  induction k with
  | zero =>
    intro a
    simp [wordsVal]
  | succ k ih =>
    intro a
    have hrev : (List.range (k + 1)).reverse = k :: (List.range k).reverse := by
      rw [List.range_succ, List.reverse_append, List.reverse_singleton]
      rfl
    rw [hrev, List.foldl_cons, ih]
    have hw : words.getD k 0 % 4294967296 < 2 ^ 32 := Nat.mod_lt _ (by norm_num)
    rw [show (4294967296 : ℕ) = 2 ^ 32 from rfl] at hw ⊢
    rw [shiftOr_eq_add a _ hw]
    have hsum : wordsVal words (k + 1) =
        wordsVal words k + words.getD k 0 % 2 ^ 32 * 2 ^ (32 * k) := by
      rw [wordsVal, wordsVal, List.range_succ, List.map_append, List.sum_append]
      simp
    rw [hsum]
    have hpow : 32 * (k + 1) = 32 * k + 32 := by ring
    rw [hpow, pow_add]
    ring

/-- The little-endian composition loop computes the base-2^32 digit sum. -/
theorem composeWords_eq (words : List Nat) (k : ℕ) :
    composeWords words k = wordsVal words k := by
  rw [composeWords, composeWords_aux]
  simp

/-- The composed words fit in `32 * k` bits. -/
theorem wordsVal_lt (words : List Nat) (k : ℕ) : wordsVal words k < 2 ^ (32 * k) := by
  induction k with
  | zero => simp [wordsVal]
  | succ k ih =>
    have hw : words.getD k 0 % 4294967296 < 2 ^ 32 := Nat.mod_lt _ (by norm_num)
    have hsum : wordsVal words (k + 1) =
        wordsVal words k + words.getD k 0 % 4294967296 * 2 ^ (32 * k) := by
      rw [wordsVal, wordsVal, List.range_succ, List.map_append, List.sum_append]
      simp
    have hpow : 32 * (k + 1) = 32 * k + 32 := by ring
    rw [hsum, hpow, pow_add]
    nlinarith [ih, hw, pow_pos (show (0:ℕ) < 2 by norm_num) (32 * k)]

/-- For a value of `32 * k` bits, the bitwise sign-bit test of the source is
the arithmetic comparison with `2 ^ (32 * k - 1)` of the specification. -/
theorem signBit_iff (b k : ℕ) (hk : 0 < k) (hb : b < 2 ^ (32 * k)) :
    (b &&& (1 <<< (32 * k - 1)) ≠ 0) ↔ ¬ (b < 2 ^ (32 * k - 1)) := by
  have h1 : (1 : ℕ) <<< (32 * k - 1) = 2 ^ (32 * k - 1) := by
    rw [Nat.shiftLeft_eq, one_mul]
  have hm : 32 * k - 1 + 1 = 32 * k := by omega
  have hb2 : b < 2 ^ (32 * k - 1) * 2 := by
    calc b < 2 ^ (32 * k) := hb
    _ = 2 ^ (32 * k - 1) * 2 := by rw [← pow_succ, hm]
  have hdiv : b / 2 ^ (32 * k - 1) < 2 := Nat.div_lt_of_lt_mul hb2
  rw [h1, Nat.and_two_pow, Nat.testBit_to_div_mod]
  have hmod : b / 2 ^ (32 * k - 1) % 2 = b / 2 ^ (32 * k - 1) := Nat.mod_eq_of_lt hdiv
  rw [hmod]
  by_cases hge : 2 ^ (32 * k - 1) ≤ b
  · have hone : b / 2 ^ (32 * k - 1) = 1 := by
      have hle : 1 ≤ b / 2 ^ (32 * k - 1) :=
        (Nat.one_le_div_iff (Nat.pos_pow_of_pos _ (by norm_num))).mpr hge
      omega
    simp [hone, hge, Nat.pow_pos]
  · have hzero : b / 2 ^ (32 * k - 1) = 0 := Nat.div_eq_of_lt (by omega)
    simp [hzero]
    omega

/-- The sign-adjusted composed value of the source equals the
specification-side two's-complement reading. -/
theorem decimal_big_eq (words : List Nat) (k : ℕ) (hk : k ≠ 0) :
    (if composeWords words k &&& (1 <<< (32 * k - 1)) ≠ 0
     then (composeWords words k : Int) - (2 : Int) ^ (32 * k)
     else (composeWords words k : Int)) = twosVal words k := by
  rw [composeWords_eq]
  have hiff := signBit_iff (wordsVal words k) k (Nat.pos_of_ne_zero hk) (wordsVal_lt words k)
  by_cases h : wordsVal words k < 2 ^ (32 * k - 1)
  · rw [if_neg (by rw [hiff]; omega), twosVal, if_pos h]
  · rw [if_pos (hiff.mpr h), twosVal, if_neg h]

/-- The kernel-friendly division by a power of ten agrees with the rational
power expression of the specification. -/
theorem jsDivPow10_eq (n s : Int) : jsDivPow10 n s = (n : ℚ) / (10 : ℚ) ^ s := by
  rw [jsDivPow10]
  split
  · rename_i hs
    rw [Rat.divInt_eq_div]
    have hcast : (((10 : Int) ^ s.toNat : Int) : ℚ) = (10 : ℚ) ^ s := by
      push_cast
      rw [← zpow_natCast (10 : ℚ) s.toNat, Int.toNat_of_nonneg hs]
    rw [hcast]
  · rename_i hs
    rw [Rat.divInt_eq_div]
    push_cast
    have hk : ((-s).toNat : Int) = -s := Int.toNat_of_nonneg (by omega)
    have hzp : (10 : ℚ) ^ s = ((10 : ℚ) ^ (-s).toNat)⁻¹ := by
      rw [← zpow_natCast (10 : ℚ) (-s).toNat]
      rw [show ((-s).toNat : Int) = -s from hk]
      rw [zpow_neg, inv_inv]
    rw [hzp, div_one, div_eq_mul_inv, inv_inv]

/-- Division of zero by any power of ten is zero. -/
theorem jsDivPow10_zero (s : Int) : jsDivPow10 0 s = 0 := by
  rw [jsDivPow10]
  split
  · exact Rat.zero_divInt _
  · rw [zero_mul]
    exact Rat.zero_divInt _

/-- Characterization of `decimalWordsToNumber` in specification terms: the
words are composed into the base-2^32 digit sum, read as two's complement
(`twosVal`), divided by `10 ^ scale`; the quotient is returned as a native
number whenever the scale is nonzero and the quotient is finite, otherwise
the undivided integer is returned as a native number when finite and within
the safe range, else as its decimal string. -/
theorem decimalWordsToNumber_spec (words : List Nat) (k : ℕ) (scale : Int) :
    decimalWordsToNumber words k scale =
      if k = 0 then JSValue.num 0
      else
        if scale ≠ 0 ∧ jsFinite ((twosVal words k : ℚ) / (10 : ℚ) ^ scale) = true then
          JSValue.num ((twosVal words k : ℚ) / (10 : ℚ) ^ scale)
        else if jsFinite ((twosVal words k : ℚ)) = true ∧
            mathAbs ((twosVal words k : ℚ)) < maxSafeRat then
          JSValue.num ((twosVal words k : ℚ))
        else JSValue.str (toString (twosVal words k)) := by
  by_cases hk : k = 0
  · subst hk
    rfl
  · simp only [decimalWordsToNumber]
    rw [if_neg hk, if_neg hk]
    rw [decimal_big_eq words k hk, jsDivPow10_eq]
    rw [decimalTail]
    by_cases hs : scale = 0
    · simp [hs]
    · by_cases hf : jsFinite ((twosVal words k : ℚ) / (10 : ℚ) ^ scale) = true
      · simp [hs, hf]
      · simp [hs, hf]

/-- Counterexample to claim C3 as stated: for the 4-word value `2^64` with
scale 1 the quotient `2^64 / 10` is far outside the safe-integer range, yet
the code returns it as a native number and not as the integer's decimal
string, because the safe-range test is only applied on the zero-scale
path. -/
theorem claim_C3_cex :
    decimalWordsToNumber [0, 0, 1, 0] 4 1 = JSValue.num (Rat.divInt 18446744073709551616 10)
    ∧ Rat.divInt 18446744073709551616 10 = ((twosVal [0, 0, 1, 0] 4 : ℚ) / (10 : ℚ) ^ (1 : ℤ))
    ∧ ¬ (mathAbs (Rat.divInt 18446744073709551616 10) < maxSafeRat)
    ∧ decimalWordsToNumber [0, 0, 1, 0] 4 1 ≠ JSValue.str (toString (twosVal [0, 0, 1, 0] 4)) := by
  refine ⟨rfl, ?_, by decide, ?_⟩
  · rw [show twosVal [0, 0, 1, 0] 4 = 18446744073709551616 from by decide]
    rw [Rat.divInt_eq_div]
    norm_num
  · intro h
    rw [show decimalWordsToNumber [0, 0, 1, 0] 4 1 =
        JSValue.num (Rat.divInt 18446744073709551616 10) from rfl] at h
    exact JSValue.noConfusion h

/-- Claim C3 (amended): decimal decoding composes the little-endian 32-bit
words into a `32·k`-bit integer, interprets it as two's complement, and
divides by `10^scale` with the scale extracted from the type string (the
`Decimal[..e±N]` format first, then `Decimal(..,N)`, then `Decimal<..,N>`,
default 0).  The quotient is returned as a native number whenever the scale
is nonzero and the quotient is finite — even outside the safe-integer range
— while the safe-range test only guards the zero-scale/fallthrough path,
which otherwise returns the integer's decimal string.  The 4-word
representation of `-12345` with scale 2 yields `-123.45`, and words
representing 0 yield 0 for every scale. -/
theorem claim_C3_amended :
    (∀ (words : List Nat) (k : ℕ) (scale : Int),
        decimalWordsToNumber words k scale =
          if k = 0 then JSValue.num 0
          else
            if scale ≠ 0 ∧ jsFinite ((twosVal words k : ℚ) / (10 : ℚ) ^ scale) = true then
              JSValue.num ((twosVal words k : ℚ) / (10 : ℚ) ^ scale)
            else if jsFinite ((twosVal words k : ℚ)) = true ∧
                mathAbs ((twosVal words k : ℚ)) < maxSafeRat then
              JSValue.num ((twosVal words k : ℚ))
            else JSValue.str (toString (twosVal words k)))
    ∧ twosVal [4294954951, 4294967295, 4294967295, 4294967295] 4 = -12345
    ∧ decimalWordsToNumber [4294954951, 4294967295, 4294967295, 4294967295] 4 2 =
        JSValue.num (Rat.divInt (-12345) 100)
    ∧ Rat.divInt (-12345) 100 = (-12345 : ℚ) / 100
    ∧ (∀ scale : Int, decimalWordsToNumber [0, 0, 0, 0] 4 scale = JSValue.num 0)
    ∧ extractDecimalScale "Decimal[15e+2]" = 2
    ∧ extractDecimalScale "Decimal[15e-2]" = -2
    ∧ extractDecimalScale "Decimal128(15, 2)" = 2
    ∧ extractDecimalScale "Decimal128<15, 2>" = 2
    ∧ extractDecimalScale "Int32" = 0 := by
  refine ⟨decimalWordsToNumber_spec, by decide, rfl, ?_, ?_, by decide, by decide, by decide,
    by decide, by decide⟩
  · rw [Rat.divInt_eq_div]
    norm_num
  · intro scale
    rw [decimalWordsToNumber_spec]
    rw [show twosVal [0, 0, 0, 0] 4 = 0 from by decide]
    have hf0 : jsFinite (0 : ℚ) = true := by decide
    have hm0 : mathAbs (0 : ℚ) < maxSafeRat := by decide
    simp only [Int.cast_zero, zero_div]
    by_cases hs : scale = 0
    · simp [hs, hf0, hm0]
    · simp [hs, hf0, hm0]

/-- Claim C5 (amended): a plain object cell is decoded as a decimal word
buffer exactly when it has between 1 and 8 keys, every key is a nonempty
string of ASCII digits (not necessarily small or consecutive), and the
declared type name contains "decimal" case-insensitively; every other object
is normalized field by field as a generic struct.  A word buffer with keys
`"0"..."3"` holding the little-endian words of `-12345` under a
`Decimal128(19, 2)` column decodes to `-123.45`. -/
theorem claim_C5_amended :
    (∀ (fields : List (String × JSValue)) (ft : Option String),
        convertValue (.object fields) ft =
          if isDecimalWordsCase fields ft then
            decimalWordsToNumber (objectWords fields) fields.length
              (extractDecimalScale (ft.getD ""))
          else .object (fields.map fun kv => (kv.1, convertValue kv.2 none)))
    ∧ (∀ (fields : List (String × JSValue)) (ft : Option String),
        isDecimalWordsCase fields ft = true ↔
          (0 < fields.length ∧ fields.length ≤ 8
            ∧ (∀ kv ∈ fields, isDigitKey kv.1 = true) ∧ decimalTypeB ft = true))
    ∧ convertValue (.object [("0", .num 4294954951), ("1", .num 4294967295),
          ("2", .num 4294967295), ("3", .num 4294967295)]) (some "Decimal128(19, 2)") =
        .num (Rat.divInt (-12345) 100)
    ∧ convertValue (.object [("a", .num 1)]) (some "Decimal128(19, 2)") =
        .object [("a", .num 1)] := by
  refine ⟨convertValue_object, ?_, rfl, ?_⟩
  · intro fields ft
    simp only [isDecimalWordsCase, Bool.and_eq_true, decide_eq_true_eq, List.all_eq_true,
      List.mem_map]
    constructor
    · rintro ⟨⟨⟨h1, h2⟩, h3⟩, h4⟩
      exact ⟨h1, h2, fun kv hkv => h3 kv.1 ⟨kv, hkv, rfl⟩, h4⟩
    · rintro ⟨h1, h2, h3, h4⟩
      exact ⟨⟨⟨h1, h2⟩, fun x hx => by
        obtain ⟨kv, hkv, rfl⟩ := hx
        exact h3 kv hkv⟩, h4⟩
  · rw [convertValue_object, if_neg (by decide)]
    rfl

/-- Counterexample to claim C5 as stated: the object with the single
non-consecutive digit key `"7"` on a decimal column is nevertheless decoded
as a decimal word buffer — the absent properties `"0"`, ... read as word 0,
so the result is the number 0 — rather than being normalized as the generic
struct the claim mandates. -/
theorem claim_C5_cex :
    convertValue (.object [("7", JSValue.num 3)]) (some "Decimal128(3, 0)") = JSValue.num 0
    ∧ JSValue.num 0 ≠
        JSValue.object ([("7", JSValue.num 3)].map fun kv => (kv.1, convertValue kv.2 none)) := by
  refine ⟨rfl, ?_⟩
  intro h
  exact JSValue.noConfusion h
